import Mathlib

/-
Shallow embedding of src/marche_type.py (IDM car-following simulation and
route profile generator).

Python floats are modelled as real numbers for the IDM components, whose
formula involves a square root, and as rational numbers for the
square-root-free route profile generator, so that every route definition is
executable and concrete runs can be settled by decide. The while loop of
simulate_route is modelled with explicit fuel: running out of fuel yields
none, so nontermination of the Python loop corresponds to the fuel-indexed
family being none at every fuel.
-/

/-- Embeds the Python dataclass VehicleState: position x (m), velocity v (m/s). -/
structure VehicleState where
  x : ℝ
  v : ℝ

/-- Embeds the Python dataclass IDMParameters. -/
structure IDMParameters where
  v0 : ℝ
  T : ℝ
  a : ℝ
  b : ℝ
  s0 : ℝ
  delta : ℤ := 4

/-- Embeds idm_acceleration (src/marche_type.py lines 26-33). -/
noncomputable def idm_acceleration (lead follower : VehicleState) (params : IDMParameters) : ℝ :=
  let s := lead.x - follower.x
  if s ≤ 0 then -params.b
  else
    let dv := follower.v - lead.v
    let s_star := params.s0 + max 0 (follower.v * params.T + (follower.v * dv) / (2 * Real.sqrt (params.a * params.b)))
    params.a * (1 - (follower.v / params.v0) ^ params.delta - (s_star / s) ^ 2)

/-- One iteration of the loop body of MarcheTypeSimulator.simulate_idm
(src/marche_type.py lines 55-61), acting on the (lead, follower) pair.
The order of the Python statements is preserved: the lead state is updated
first, the acceleration is computed from the updated lead, then the
follower velocity is clamped and its position advanced. -/
noncomputable def idmStep (params : IDMParameters) (dt lead_speed : ℝ) (st : VehicleState × VehicleState) : VehicleState × VehicleState :=
  let lead : VehicleState := ⟨st.1.x + lead_speed * dt, lead_speed⟩
  let acc := idm_acceleration lead st.2 params
  let v' := max 0 (st.2.v + acc * dt)
  (lead, ⟨st.2.x + v' * dt, v'⟩)

/-- The sample-collecting loop of simulate_idm: steps iterations, recording
(follower.x, follower.v) after each iteration. -/
noncomputable def simulateIdmAux (params : IDMParameters) (dt lead_speed : ℝ) : ℕ → VehicleState × VehicleState → List (ℝ × ℝ)
  | 0, _ => []
  | n + 1, st =>
    let st' := idmStep params dt lead_speed st
    (st'.2.x, st'.2.v) :: simulateIdmAux params dt lead_speed n st'

/-- Embeds MarcheTypeSimulator.simulate_idm (src/marche_type.py lines 43-62).
self.params and self.dt are passed explicitly. The caller's states are
copied field by field into fresh working states, as in lines 51-52. -/
noncomputable def simulate_idm (params : IDMParameters) (dt : ℝ) (lead_init follower_init : VehicleState) (steps : ℕ) (lead_speed : ℝ) : List (ℝ × ℝ) :=
  simulateIdmAux params dt lead_speed steps (⟨lead_init.x, lead_init.v⟩, ⟨follower_init.x, follower_init.v⟩)

lemma simulateIdmAux_length (params : IDMParameters) (dt lead_speed : ℝ) : ∀ (n : ℕ) (st : VehicleState × VehicleState), (simulateIdmAux params dt lead_speed n st).length = n := by
  intro n
  induction n with
  | zero => intro st; rfl
  | succ n ih => intro st; simp [simulateIdmAux, ih]

lemma simulateIdmAux_getElem (params : IDMParameters) (dt lead_speed : ℝ) : ∀ (k n : ℕ) (st : VehicleState × VehicleState), k < n → (simulateIdmAux params dt lead_speed n st)[k]? = some (((idmStep params dt lead_speed)^[k + 1] st).2.x, ((idmStep params dt lead_speed)^[k + 1] st).2.v) := by
  intro k
  induction k with
  | zero =>
    intro n st hk
    match n with
    | m + 1 => simp [simulateIdmAux]
  | succ k ih =>
    intro n st hk
    match n with
    | m + 1 =>
      have hk' : k < m := Nat.lt_of_succ_lt_succ hk
      simp only [simulateIdmAux, List.getElem?_cons_succ]
      rw [ih m (idmStep params dt lead_speed st) hk']
      rw [← Function.iterate_succ_apply]

lemma simulateIdmAux_vel_nonneg (params : IDMParameters) (dt lead_speed : ℝ) : ∀ (n : ℕ) (st : VehicleState × VehicleState) (p : ℝ × ℝ), p ∈ simulateIdmAux params dt lead_speed n st → 0 ≤ p.2 := by
  intro n
  induction n with
  | zero => intro st p hp; simp [simulateIdmAux] at hp
  | succ n ih =>
    intro st p hp
    simp only [simulateIdmAux, List.mem_cons] at hp
    rcases hp with hp | hp
    · subst hp
      exact le_max_left 0 _
    · exact ih _ p hp

/-- Claim C1: for a > 0, b > 0 and v0 nonzero, idm_acceleration returns
exactly -b when the gap s = lead.x - follower.x satisfies s ≤ 0, and
otherwise returns a * (1 - (follower.v / v0)^delta - (s_star / s)^2) with
s_star = s0 + max(0, follower.v * T + follower.v * (follower.v - lead.v) / (2 * sqrt(a * b))). -/
theorem idm_acceleration_formula (lead follower : VehicleState) (params : IDMParameters) (ha : 0 < params.a) (hb : 0 < params.b) (hv0 : params.v0 ≠ 0) : (lead.x - follower.x ≤ 0 → idm_acceleration lead follower params = -params.b) ∧ (0 < lead.x - follower.x → idm_acceleration lead follower params = params.a * (1 - (follower.v / params.v0) ^ params.delta - ((params.s0 + max 0 (follower.v * params.T + follower.v * (follower.v - lead.v) / (2 * Real.sqrt (params.a * params.b)))) / (lead.x - follower.x)) ^ 2)) := by
  constructor
  · intro hs
    simp only [idm_acceleration]
    rw [if_pos hs]
  · intro hs
    simp only [idm_acceleration]
    rw [if_neg (not_le.mpr hs)]

/-- Concrete instantiation of the C1 theorem. -/
theorem idm_acceleration_formula_witness : ((0 : ℝ) < 1 ∧ (1 : ℝ) ≠ 0) ∧ (((⟨1, 0⟩ : VehicleState).x - (⟨0, 0⟩ : VehicleState).x ≤ 0 → idm_acceleration ⟨1, 0⟩ ⟨0, 0⟩ ⟨1, 0, 1, 1, 0, 4⟩ = -(1 : ℝ)) ∧ (0 < (⟨1, 0⟩ : VehicleState).x - (⟨0, 0⟩ : VehicleState).x → idm_acceleration ⟨1, 0⟩ ⟨0, 0⟩ ⟨1, 0, 1, 1, 0, 4⟩ = (1 : ℝ) * (1 - ((0 : ℝ) / 1) ^ (4 : ℤ) - (((0 : ℝ) + max 0 ((0 : ℝ) * 0 + (0 : ℝ) * ((0 : ℝ) - 0) / (2 * Real.sqrt (1 * 1)))) / ((1 : ℝ) - 0)) ^ 2))) :=
  ⟨⟨by norm_num, by norm_num⟩, idm_acceleration_formula ⟨1, 0⟩ ⟨0, 0⟩ ⟨1, 0, 1, 1, 0, 4⟩ (by norm_num) (by norm_num) (by norm_num)⟩

/-- Claim C3: simulate_idm with steps = N returns exactly N samples, for
every input. -/
theorem simulate_idm_length (params : IDMParameters) (dt : ℝ) (lead_init follower_init : VehicleState) (steps : ℕ) (lead_speed : ℝ) : (simulate_idm params dt lead_init follower_init steps lead_speed).length = steps :=
  simulateIdmAux_length params dt lead_speed steps _

/-- Claim C2: the k-th output sample of simulate_idm (0-based index k, i.e.
the (k+1)-st sample) is the follower component of applying the loop body
k+1 times to the initial (lead, follower) pair, where the loop body sets
lead.v to lead_speed, then lead.x to lead.x + lead_speed * dt, then
computes acc = idm_acceleration(lead, follower, params), then sets
follower.v to max(0, follower.v + acc * dt), then follower.x to
follower.x + follower.v * dt. -/
theorem simulate_idm_getElem (params : IDMParameters) (dt : ℝ) (lead_init follower_init : VehicleState) (steps : ℕ) (lead_speed : ℝ) (k : ℕ) (hk : k < steps) : (simulate_idm params dt lead_init follower_init steps lead_speed)[k]? = some (((idmStep params dt lead_speed)^[k + 1] (⟨lead_init.x, lead_init.v⟩, ⟨follower_init.x, follower_init.v⟩)).2.x, ((idmStep params dt lead_speed)^[k + 1] (⟨lead_init.x, lead_init.v⟩, ⟨follower_init.x, follower_init.v⟩)).2.v) :=
  simulateIdmAux_getElem params dt lead_speed k steps _ hk

/-- Concrete instantiation of the C2 theorem. -/
theorem simulate_idm_getElem_witness : 0 < 1 ∧ (simulate_idm ⟨1, 0, 1, 1, 0, 4⟩ 1 ⟨1, 0⟩ ⟨0, 0⟩ 1 0)[0]? = some (((idmStep ⟨1, 0, 1, 1, 0, 4⟩ 1 0)^[0 + 1] (⟨1, 0⟩, ⟨0, 0⟩)).2.x, ((idmStep ⟨1, 0, 1, 1, 0, 4⟩ 1 0)^[0 + 1] (⟨1, 0⟩, ⟨0, 0⟩)).2.v) :=
  ⟨Nat.zero_lt_one, simulate_idm_getElem ⟨1, 0, 1, 1, 0, 4⟩ 1 ⟨1, 0⟩ ⟨0, 0⟩ 1 0 0 Nat.zero_lt_one⟩

/-- Claim C4: every sample produced by simulate_idm has nonnegative
velocity component, for every input. -/
theorem simulate_idm_vel_nonneg (params : IDMParameters) (dt : ℝ) (lead_init follower_init : VehicleState) (steps : ℕ) (lead_speed : ℝ) (p : ℝ × ℝ) (hp : p ∈ simulate_idm params dt lead_init follower_init steps lead_speed) : 0 ≤ p.2 :=
  simulateIdmAux_vel_nonneg params dt lead_speed steps _ p hp

lemma simulate_idm_concrete_run : simulate_idm ⟨1, 1, 1, 1, 0, 4⟩ 1 ⟨1, 0⟩ ⟨0, 0⟩ 1 0 = [(1, 1)] := by
  have hsq : Real.sqrt (1 * 1) = 1 := by rw [mul_one, Real.sqrt_one]
  have hacc : idm_acceleration ⟨1 + 0 * 1, 0⟩ ⟨0, 0⟩ ⟨1, 1, 1, 1, 0, 4⟩ = 1 := by
    rw [idm_acceleration]
    norm_num
  simp only [simulate_idm, simulateIdmAux, idmStep, hacc]
  norm_num

/-- Concrete instantiation of the C4 theorem. -/
theorem simulate_idm_vel_nonneg_witness : (0 : ℝ) ≤ ((1 : ℝ), (1 : ℝ)).2 :=
  simulate_idm_vel_nonneg ⟨1, 1, 1, 1, 0, 4⟩ 1 ⟨1, 0⟩ ⟨0, 0⟩ 1 0 (1, 1) (by rw [simulate_idm_concrete_run]; exact List.mem_singleton.mpr rfl)

/-
Route profile generator (src/marche_type.py lines 64-104), modelled over ℚ.
The state carries the three output lists and the loop scalars t, x, v.
-/

/-- Local state of MarcheTypeSimulator.simulate_route: the three output
lists time, pos, vel and the scalars t, x, v. -/
structure RouteAcc where
  time : List ℚ
  pos : List ℚ
  vel : List ℚ
  t : ℚ
  x : ℚ
  v : ℚ
  deriving DecidableEq

/-- One iteration of the inner while loop of simulate_route
(src/marche_type.py lines 81-93): choose braking or acceleration from the
braking-distance heuristic, advance position and time, append a sample. -/
def legStep (dt accel decel v_max target : ℚ) (s : RouteAcc) : RouteAcc :=
  let dist_left := target - s.x
  let stopping_dist := s.v ^ 2 / (2 * decel)
  let v' := if dist_left ≤ stopping_dist then max 0 (s.v - decel * dt)
    else if s.v < v_max then min v_max (s.v + accel * dt) else s.v
  ⟨s.time ++ [s.t + dt], s.pos ++ [s.x + v' * dt], s.vel ++ [v'], s.t + dt, s.x + v' * dt, v'⟩

/-- The while loop of simulate_route with explicit fuel: while x < target,
apply legStep; none means the fuel was exhausted with the guard still true. -/
def legLoop (dt accel decel v_max target : ℚ) : ℕ → RouteAcc → Option RouteAcc
  | 0, s => if s.x < target then none else some s
  | n + 1, s =>
    if s.x < target then legLoop dt accel decel v_max target n (legStep dt accel decel v_max target s) else some s

/-- Number of dwell samples: int(dwell_time / self.dt) in Python
(src/marche_type.py line 98). For a nonnegative quotient this is the floor;
for a negative quotient Python range() is empty and toNat is 0. -/
def dwellSteps (dt dwell_time : ℚ) : ℕ :=
  (⌊dwell_time / dt⌋).toNat

/-- The arrival snap on loop exit (src/marche_type.py lines 94-97):
x = target, then append (t, target, 0.0) without advancing t. -/
def snapArrive (target : ℚ) (s : RouteAcc) : RouteAcc :=
  ⟨s.time ++ [s.t], s.pos ++ [target], s.vel ++ [0], s.t, target, s.v⟩

/-- The dwell loop (src/marche_type.py lines 98-102): n times advance t by
dt and append (t, x, 0.0), keeping x and v. -/
def dwellLoop (dt : ℚ) : ℕ → RouteAcc → RouteAcc
  | 0, s => s
  | n + 1, s => dwellLoop dt n ⟨s.time ++ [s.t + dt], s.pos ++ [s.x], s.vel ++ [0], s.t + dt, s.x, s.v⟩

/-- One station-to-station leg (src/marche_type.py lines 80-103): the while
loop, the arrival snap, the dwell loop, then v = 0.0. -/
def runLeg (dt accel decel v_max dwell_time target : ℚ) (fuel : ℕ) (s : RouteAcc) : Option RouteAcc :=
  match legLoop dt accel decel v_max target fuel s with
  | none => none
  | some s1 =>
    let s2 := dwellLoop dt (dwellSteps dt dwell_time) (snapArrive target s1)
    some ⟨s2.time, s2.pos, s2.vel, s2.t, s2.x, 0⟩

/-- The per-station loop of simulate_route (src/marche_type.py line 79),
iterating runLeg over the targets stations[1:]. -/
def routeLegs (dt accel decel v_max dwell_time : ℚ) (fuel : ℕ) : List ℚ → RouteAcc → Option RouteAcc
  | [], s => some s
  | target :: rest, s =>
    match runLeg dt accel decel v_max dwell_time target fuel s with
    | none => none
    | some s' => routeLegs dt accel decel v_max dwell_time fuel rest s'

/-- Embeds MarcheTypeSimulator.simulate_route (src/marche_type.py lines
64-104) with explicit fuel for the while loops; self.dt is passed
explicitly. An empty station list raises IndexError in Python and is
mapped to none. -/
def simulate_route (stations : List ℚ) (dwell_time accel decel v_max dt : ℚ) (fuel : ℕ) : Option (List ℚ × List ℚ × List ℚ) :=
  match stations with
  | [] => none
  | s0 :: rest =>
    match routeLegs dt accel decel v_max dwell_time fuel rest ⟨[0], [s0], [0], 0, s0, 0⟩ with
    | none => none
    | some s => some (s.time, s.pos, s.vel)

/-- simulate_route terminates on an input when some amount of fuel makes
every while loop reach its exit condition. -/
def routeTerminates (stations : List ℚ) (dwell_time accel decel v_max dt : ℚ) : Prop :=
  ∃ fuel, (simulate_route stations dwell_time accel decel v_max dt fuel).isSome

lemma dwellLoop_spec (dt : ℚ) : ∀ (n : ℕ) (s : RouteAcc), dwellLoop dt n s = ⟨s.time ++ (List.range n).map (fun i : ℕ => s.t + ((i : ℚ) + 1) * dt), s.pos ++ List.replicate n s.x, s.vel ++ List.replicate n 0, s.t + n * dt, s.x, s.v⟩ := by
  intro n
  induction n with
  | zero => intro s; simp [dwellLoop]
  | succ n ih =>
    intro s
    rw [dwellLoop, ih]
    simp only [RouteAcc.mk.injEq]
    refine ⟨?_, ?_, ?_, ?_, trivial, trivial⟩
    · rw [List.range_succ_eq_map, List.map_cons, List.map_map, List.append_assoc]
      simp only [Nat.cast_zero, zero_add, one_mul, List.singleton_append]
      congr 1
      congr 1
      apply List.map_congr_left
      intro i _
      simp only [Function.comp_apply, Nat.cast_succ]
      ring
    · rw [List.append_assoc, List.replicate_succ, List.singleton_append]
    · rw [List.append_assoc, List.replicate_succ, List.singleton_append]
    · push_cast
      ring


lemma legStep_vel (dt accel decel v_max target : ℚ) (s : RouteAcc) : (legStep dt accel decel v_max target s).vel = s.vel ++ [(legStep dt accel decel v_max target s).v] := rfl

lemma legStep_time (dt accel decel v_max target : ℚ) (s : RouteAcc) : (legStep dt accel decel v_max target s).time = s.time ++ [s.t + dt] := rfl

lemma legStep_t (dt accel decel v_max target : ℚ) (s : RouteAcc) : (legStep dt accel decel v_max target s).t = s.t + dt := rfl

lemma legStep_x (dt accel decel v_max target : ℚ) (s : RouteAcc) : (legStep dt accel decel v_max target s).x = s.x + (legStep dt accel decel v_max target s).v * dt := rfl

lemma legLoop_of_not_lt (dt accel decel v_max target : ℚ) (n : ℕ) (s : RouteAcc) (h : ¬ s.x < target) : legLoop dt accel decel v_max target n s = some s := by
  cases n with
  | zero => simp only [legLoop]; rw [if_neg h]
  | succ n => simp only [legLoop]; rw [if_neg h]

lemma legLoop_succ_of_lt (dt accel decel v_max target : ℚ) (n : ℕ) (s : RouteAcc) (h : s.x < target) : legLoop dt accel decel v_max target (n + 1) s = legLoop dt accel decel v_max target n (legStep dt accel decel v_max target s) := by
  simp only [legLoop]
  rw [if_pos h]

lemma legLoop_mono (dt accel decel v_max target : ℚ) : ∀ (n m : ℕ), n ≤ m → ∀ s : RouteAcc, (legLoop dt accel decel v_max target n s).isSome → legLoop dt accel decel v_max target m s = legLoop dt accel decel v_max target n s := by
  intro n
  induction n with
  | zero =>
    intro m _ s hs
    by_cases h : s.x < target
    · rw [legLoop] at hs
      rw [if_pos h] at hs
      simp at hs
    · rw [legLoop_of_not_lt dt accel decel v_max target m s h, legLoop_of_not_lt dt accel decel v_max target 0 s h]
  | succ n ih =>
    intro m hm s hs
    by_cases h : s.x < target
    · match m, hm with
      | m + 1, hm =>
        rw [legLoop_succ_of_lt dt accel decel v_max target n s h] at hs
        rw [legLoop_succ_of_lt dt accel decel v_max target m s h, legLoop_succ_of_lt dt accel decel v_max target n s h]
        exact ih m (Nat.le_of_succ_le_succ hm) _ hs
    · rw [legLoop_of_not_lt dt accel decel v_max target m s h, legLoop_of_not_lt dt accel decel v_max target (n + 1) s h]

lemma brake_decel_pos (decel v w : ℚ) (hpos : 0 < v) (h : v ≤ w ^ 2 / (2 * decel)) : 0 < decel := by
  by_contra hneg
  push_neg at hneg
  have h2 : 2 * decel ≤ 0 := by linarith
  have hle : w ^ 2 / (2 * decel) ≤ 0 := div_nonpos_iff.mpr (Or.inl ⟨sq_nonneg w, h2⟩)
  linarith

lemma legStep_v_le (dt accel decel v_max target : ℚ) (s : RouteAcc) (hx : s.x < target) (hdt : 0 ≤ dt) (hv : s.v ≤ v_max) (hvm : 0 ≤ v_max) : (legStep dt accel decel v_max target s).v ≤ v_max := by
  simp only [legStep]
  split
  case isTrue h =>
    have hpos : 0 < target - s.x := by linarith
    have hdecel : 0 < decel := brake_decel_pos decel (target - s.x) s.v hpos h
    have hmul : 0 ≤ decel * dt := mul_nonneg hdecel.le hdt
    exact max_le hvm (by linarith)
  case isFalse h =>
    split
    case isTrue h2 => exact min_le_left _ _
    case isFalse h2 => exact hv

lemma legLoop_vel_le (dt accel decel v_max target : ℚ) (hdt : 0 ≤ dt) (hvm : 0 ≤ v_max) : ∀ (n : ℕ) (s s' : RouteAcc), (∀ w ∈ s.vel, w ≤ v_max) → s.v ≤ v_max → legLoop dt accel decel v_max target n s = some s' → (∀ w ∈ s'.vel, w ≤ v_max) ∧ s'.v ≤ v_max := by
  intro n
  induction n with
  | zero =>
    intro s s' hvel hv hloop
    by_cases h : s.x < target
    · rw [legLoop] at hloop
      rw [if_pos h] at hloop
      cases hloop
    · rw [legLoop_of_not_lt dt accel decel v_max target 0 s h] at hloop
      cases hloop
      exact ⟨hvel, hv⟩
  | succ n ih =>
    intro s s' hvel hv hloop
    by_cases h : s.x < target
    · rw [legLoop_succ_of_lt dt accel decel v_max target n s h] at hloop
      refine ih _ _ ?_ (legStep_v_le dt accel decel v_max target s h hdt hv hvm) hloop
      intro w hw
      rw [legStep_vel dt accel decel v_max target s] at hw
      rcases List.mem_append.mp hw with hw | hw
      · exact hvel w hw
      · rw [List.mem_singleton] at hw
        subst hw
        exact legStep_v_le dt accel decel v_max target s h hdt hv hvm
    · rw [legLoop_of_not_lt dt accel decel v_max target (n + 1) s h] at hloop
      cases hloop
      exact ⟨hvel, hv⟩

lemma snapArrive_vel (target : ℚ) (s : RouteAcc) : (snapArrive target s).vel = s.vel ++ [0] := rfl

lemma runLeg_vel_le (dt accel decel v_max dwell_time target : ℚ) (hdt : 0 ≤ dt) (hvm : 0 ≤ v_max) (n : ℕ) (s s' : RouteAcc) (hvel : ∀ w ∈ s.vel, w ≤ v_max) (hv : s.v ≤ v_max) (hrun : runLeg dt accel decel v_max dwell_time target n s = some s') : (∀ w ∈ s'.vel, w ≤ v_max) ∧ s'.v ≤ v_max := by
  rw [runLeg] at hrun
  rcases hl : legLoop dt accel decel v_max target n s with _ | s1
  · rw [hl] at hrun
    cases hrun
  · rw [hl] at hrun
    have hs1 := legLoop_vel_le dt accel decel v_max target hdt hvm n s s1 hvel hv hl
    simp only [Option.some.injEq] at hrun
    subst hrun
    constructor
    · intro w hw
      simp only [dwellLoop_spec, snapArrive_vel] at hw
      rcases List.mem_append.mp hw with hw | hw
      · rcases List.mem_append.mp hw with hw | hw
        · exact hs1.1 w hw
        · rw [List.mem_singleton] at hw
          subst hw
          exact hvm
      · rw [List.eq_of_mem_replicate hw]
        exact hvm
    · exact hvm

lemma routeLegs_vel_le (dt accel decel v_max dwell_time : ℚ) (hdt : 0 ≤ dt) (hvm : 0 ≤ v_max) (fuel : ℕ) : ∀ (targets : List ℚ) (s s' : RouteAcc), (∀ w ∈ s.vel, w ≤ v_max) → s.v ≤ v_max → routeLegs dt accel decel v_max dwell_time fuel targets s = some s' → ∀ w ∈ s'.vel, w ≤ v_max := by
  intro targets
  induction targets with
  | nil =>
    intro s s' hvel hv hlegs
    rw [routeLegs] at hlegs
    simp only [Option.some.injEq] at hlegs
    subst hlegs
    exact hvel
  | cons target rest ih =>
    intro s s' hvel hv hlegs
    rw [routeLegs] at hlegs
    rcases hr : runLeg dt accel decel v_max dwell_time target fuel s with _ | s1
    · rw [hr] at hlegs
      cases hlegs
    · rw [hr] at hlegs
      have hs1 := runLeg_vel_le dt accel decel v_max dwell_time target hdt hvm fuel s s1 hvel hv hr
      exact ih s1 s' hs1.1 hs1.2 hlegs

/-- Claim C5: no velocity sample produced by simulate_route exceeds v_max,
for every station sequence, dwell time, accel, decel and v_max with
v_max > 0 (and a nonnegative time step, the implicit fixed-step setting). -/
theorem simulate_route_vel_le_vmax (stations : List ℚ) (dwell_time accel decel v_max dt : ℚ) (fuel : ℕ) (hdt : 0 ≤ dt) (hvm : 0 < v_max) (out : List ℚ × List ℚ × List ℚ) (hout : simulate_route stations dwell_time accel decel v_max dt fuel = some out) : ∀ w ∈ out.2.2, w ≤ v_max := by
  match stations with
  | [] => cases hout
  | s0 :: rest =>
    rw [simulate_route] at hout
    rcases hl : routeLegs dt accel decel v_max dwell_time fuel rest ⟨[0], [s0], [0], 0, s0, 0⟩ with _ | sf
    · rw [hl] at hout
      cases hout
    · rw [hl] at hout
      simp only [Option.some.injEq] at hout
      subst hout
      intro w hw
      refine routeLegs_vel_le dt accel decel v_max dwell_time hdt hvm.le fuel rest _ sf ?_ hvm.le hl w hw
      intro u hu
      rw [List.mem_singleton] at hu
      subst hu
      exact hvm.le

/-- Concrete instantiation of the C5 theorem. -/
lemma simulate_route_concrete_run : simulate_route [0, 1] 0 1 1 1 1 1 = some ([0, 1, 1], [0, 1, 1], [0, 1, 0]) := by
  norm_num [simulate_route, routeLegs, runLeg, legLoop, legStep, dwellLoop, dwellSteps, snapArrive]

theorem simulate_route_vel_le_vmax_witness : simulate_route [0, 1] 0 1 1 1 1 1 = some ([0, 1, 1], [0, 1, 1], [0, 1, 0]) ∧ (1 : ℚ) ≤ 1 :=
  ⟨simulate_route_concrete_run, simulate_route_vel_le_vmax [0, 1] 0 1 1 1 1 1 (by norm_num) (by norm_num) ([0, 1, 1], [0, 1, 1], [0, 1, 0]) simulate_route_concrete_run 1 (by norm_num)⟩

/-- Claim C6: when a leg's while loop exits (the target is reached), the
appended tail is exactly one sample (t, target, 0) at the current time,
followed by exactly floor(dwell_time / dt) dwell samples, each advancing
time by dt while keeping position target and velocity 0, for dt > 0 and
dwell_time >= 0. -/
theorem runLeg_arrival_dwell (dt accel decel v_max dwell_time target : ℚ) (fuel : ℕ) (s s1 : RouteAcc) (hdt : 0 < dt) (hdw : 0 ≤ dwell_time) (hloop : legLoop dt accel decel v_max target fuel s = some s1) : runLeg dt accel decel v_max dwell_time target fuel s = some ⟨(s1.time ++ [s1.t]) ++ (List.range ⌊dwell_time / dt⌋₊).map (fun i : ℕ => s1.t + ((i : ℚ) + 1) * dt), (s1.pos ++ [target]) ++ List.replicate ⌊dwell_time / dt⌋₊ target, (s1.vel ++ [0]) ++ List.replicate ⌊dwell_time / dt⌋₊ 0, s1.t + (⌊dwell_time / dt⌋₊ : ℚ) * dt, target, 0⟩ := by
  rw [runLeg, hloop]
  simp only [dwellLoop_spec, dwellSteps, Int.floor_toNat, snapArrive]

/-- Concrete instantiation of the C6 theorem. -/
theorem runLeg_arrival_dwell_witness : ((0 : ℚ) < 1 ∧ (0 : ℚ) ≤ 2 ∧ legLoop 1 1 1 1 1 1 ⟨[0], [0], [0], 0, 0, 0⟩ = some ⟨[0, 1], [0, 1], [0, 1], 1, 1, 1⟩) ∧ runLeg 1 1 1 1 2 1 1 ⟨[0], [0], [0], 0, 0, 0⟩ = some ⟨([0, 1] ++ [1]) ++ (List.range ⌊(2 : ℚ) / 1⌋₊).map (fun i : ℕ => 1 + ((i : ℚ) + 1) * 1), ([0, 1] ++ [1]) ++ List.replicate ⌊(2 : ℚ) / 1⌋₊ 1, ([0, 1] ++ [0]) ++ List.replicate ⌊(2 : ℚ) / 1⌋₊ 0, 1 + (⌊(2 : ℚ) / 1⌋₊ : ℚ) * 1, 1, 0⟩ :=
  ⟨⟨by norm_num, by norm_num, by norm_num [legLoop, legStep]⟩, runLeg_arrival_dwell 1 1 1 1 2 1 1 ⟨[0], [0], [0], 0, 0, 0⟩ ⟨[0, 1], [0, 1], [0, 1], 1, 1, 1⟩ (by norm_num) (by norm_num) (by norm_num [legLoop, legStep])⟩

/-- Counterexample to claim C7 as stated: the canonical non-increasing
station sequence [1, 0] does not hang; the per-leg loop exits immediately
(its guard x < target is false from the start) and simulate_route returns,
already with zero fuel. -/
theorem route_nonincreasing_counterexample : simulate_route [1, 0] 0 1 1 1 1 0 = some ([0, 0], [1, 0], [0, 0]) ∧ routeTerminates [1, 0] 0 1 1 1 1 := by
  have h : simulate_route [1, 0] 0 1 1 1 1 0 = some ([0, 0], [1, 0], [0, 0]) := by
    norm_num [simulate_route, routeLegs, runLeg, legLoop, legStep, dwellLoop, dwellSteps, snapArrive]
  exact ⟨h, 0, by rw [h]; rfl⟩

/-- Amended claim C7: a non-increasing station pair does not make the
per-leg loop run forever; a leg whose target is at or behind the current
position runs zero loop iterations and its runLeg returns with the
position snapped to the target. -/
theorem legLoop_skip_of_target_le (dt accel decel v_max dwell_time target : ℚ) (fuel : ℕ) (s : RouteAcc) (h : target ≤ s.x) : legLoop dt accel decel v_max target fuel s = some s ∧ ∃ s', runLeg dt accel decel v_max dwell_time target fuel s = some s' ∧ s'.x = target := by
  have hnot : ¬ s.x < target := not_lt.mpr h
  have h1 := legLoop_of_not_lt dt accel decel v_max target fuel s hnot
  refine ⟨h1, ?_⟩
  rw [runLeg, h1]
  refine ⟨⟨(dwellLoop dt (dwellSteps dt dwell_time) (snapArrive target s)).time, (dwellLoop dt (dwellSteps dt dwell_time) (snapArrive target s)).pos, (dwellLoop dt (dwellSteps dt dwell_time) (snapArrive target s)).vel, (dwellLoop dt (dwellSteps dt dwell_time) (snapArrive target s)).t, (dwellLoop dt (dwellSteps dt dwell_time) (snapArrive target s)).x, 0⟩, rfl, ?_⟩
  simp [dwellLoop_spec, snapArrive]

/-- Concrete instantiation of the C7 amended theorem. -/
theorem legLoop_skip_of_target_le_witness : ((0 : ℚ) ≤ 1) ∧ (legLoop 1 1 1 1 0 0 ⟨[0], [1], [0], 0, 1, 0⟩ = some ⟨[0], [1], [0], 0, 1, 0⟩ ∧ ∃ s', runLeg 1 1 1 1 0 0 0 ⟨[0], [1], [0], 0, 1, 0⟩ = some s' ∧ s'.x = 0) :=
  ⟨by norm_num, legLoop_skip_of_target_le 1 1 1 1 0 0 0 ⟨[0], [1], [0], 0, 1, 0⟩ (by norm_num)⟩

/-- Invariant tying the time list to the running clock: the recorded times
are nondecreasing and the last recorded time is the current clock t. -/
def timeMono (s : RouteAcc) : Prop :=
  List.Chain' (fun p q => p ≤ q) s.time ∧ s.time.getLast? = some s.t

lemma timeMono_append (s : RouteAcc) (b : ℚ) (hs : timeMono s) (hb : s.t ≤ b) : List.Chain' (fun p q => p ≤ q) (s.time ++ [b]) ∧ (s.time ++ [b]).getLast? = some b := by
  constructor
  · rw [List.chain'_append]
    refine ⟨hs.1, List.chain'_singleton b, ?_⟩
    intro p hp q hq
    rw [hs.2, Option.mem_def, Option.some.injEq] at hp
    simp only [List.head?_cons, Option.mem_def, Option.some.injEq] at hq
    subst hp
    subst hq
    exact hb
  · exact List.getLast?_concat s.time

lemma legStep_timeMono (dt accel decel v_max target : ℚ) (hdt : 0 ≤ dt) (s : RouteAcc) (hs : timeMono s) : timeMono (legStep dt accel decel v_max target s) := by
  have h := timeMono_append s (s.t + dt) hs (by linarith)
  exact ⟨by rw [legStep_time]; exact h.1, by rw [legStep_time, legStep_t]; exact h.2⟩

lemma legLoop_timeMono (dt accel decel v_max target : ℚ) (hdt : 0 ≤ dt) : ∀ (n : ℕ) (s s' : RouteAcc), timeMono s → legLoop dt accel decel v_max target n s = some s' → timeMono s' := by
  intro n
  induction n with
  | zero =>
    intro s s' hs hloop
    by_cases h : s.x < target
    · rw [legLoop] at hloop
      rw [if_pos h] at hloop
      cases hloop
    · rw [legLoop_of_not_lt dt accel decel v_max target 0 s h] at hloop
      cases hloop
      exact hs
  | succ n ih =>
    intro s s' hs hloop
    by_cases h : s.x < target
    · rw [legLoop_succ_of_lt dt accel decel v_max target n s h] at hloop
      exact ih _ s' (legStep_timeMono dt accel decel v_max target hdt s hs) hloop
    · rw [legLoop_of_not_lt dt accel decel v_max target (n + 1) s h] at hloop
      cases hloop
      exact hs

lemma snapArrive_timeMono (target : ℚ) (s : RouteAcc) (hs : timeMono s) : timeMono (snapArrive target s) := by
  have h := timeMono_append s s.t hs le_rfl
  exact ⟨h.1, h.2⟩

lemma dwellLoop_timeMono (dt : ℚ) (hdt : 0 ≤ dt) : ∀ (n : ℕ) (s : RouteAcc), timeMono s → timeMono (dwellLoop dt n s) := by
  intro n
  induction n with
  | zero => intro s hs; exact hs
  | succ n ih =>
    intro s hs
    rw [dwellLoop]
    refine ih _ ?_
    have h := timeMono_append s (s.t + dt) hs (by linarith)
    exact ⟨h.1, h.2⟩

lemma runLeg_timeMono (dt accel decel v_max dwell_time target : ℚ) (hdt : 0 ≤ dt) (fuel : ℕ) (s s' : RouteAcc) (hs : timeMono s) (hrun : runLeg dt accel decel v_max dwell_time target fuel s = some s') : timeMono s' := by
  rw [runLeg] at hrun
  rcases hl : legLoop dt accel decel v_max target fuel s with _ | s1
  · rw [hl] at hrun
    cases hrun
  · rw [hl] at hrun
    simp only [Option.some.injEq] at hrun
    subst hrun
    have h1 := legLoop_timeMono dt accel decel v_max target hdt fuel s s1 hs hl
    have h2 := dwellLoop_timeMono dt hdt (dwellSteps dt dwell_time) (snapArrive target s1) (snapArrive_timeMono target s1 h1)
    exact ⟨h2.1, h2.2⟩

lemma routeLegs_timeMono (dt accel decel v_max dwell_time : ℚ) (hdt : 0 ≤ dt) (fuel : ℕ) : ∀ (targets : List ℚ) (s s' : RouteAcc), timeMono s → routeLegs dt accel decel v_max dwell_time fuel targets s = some s' → timeMono s' := by
  intro targets
  induction targets with
  | nil =>
    intro s s' hs hlegs
    rw [routeLegs] at hlegs
    simp only [Option.some.injEq] at hlegs
    subst hlegs
    exact hs
  | cons target rest ih =>
    intro s s' hs hlegs
    rw [routeLegs] at hlegs
    rcases hr : runLeg dt accel decel v_max dwell_time target fuel s with _ | s1
    · rw [hr] at hlegs
      cases hlegs
    · rw [hr] at hlegs
      exact ih s1 s' (runLeg_timeMono dt accel decel v_max dwell_time target hdt fuel s s1 hs hr) hlegs

/-- Counterexample to claim C8 as stated: for the strictly increasing
stations [0, 1] with dwell 0, accel 1, decel 1, v_max 1, dt 1, the returned
time sequence is [0, 1, 1], whose last two samples carry equal times (the
arrival snap sample repeats the clock of the last loop sample), so the
times are not strictly increasing. -/
theorem route_time_not_strict_counterexample : simulate_route [0, 1] 0 1 1 1 1 1 = some ([0, 1, 1], [0, 1, 1], [0, 1, 0]) ∧ ¬ List.Chain' (fun p q : ℚ => p < q) [0, 1, 1] :=
  ⟨simulate_route_concrete_run, by simp [List.chain'_cons]⟩

/-- Amended claim C8: for strictly increasing stations, dt > 0, accel > 0,
decel > 0, v_max > 0 and dwell_time >= 0, the time sequence returned by
simulate_route is nondecreasing: each sample's time is greater than or
equal to the previous sample's time (equality does occur, at arrival
snaps). -/
theorem simulate_route_time_mono (stations : List ℚ) (dwell_time accel decel v_max dt : ℚ) (fuel : ℕ) (hst : List.Chain' (fun p q : ℚ => p < q) stations) (hdt : 0 < dt) (hacc : 0 < accel) (hdec : 0 < decel) (hvm : 0 < v_max) (hdw : 0 ≤ dwell_time) (out : List ℚ × List ℚ × List ℚ) (hout : simulate_route stations dwell_time accel decel v_max dt fuel = some out) : List.Chain' (fun p q => p ≤ q) out.1 := by
  match stations with
  | [] => cases hout
  | s0 :: rest =>
    rw [simulate_route] at hout
    rcases hl : routeLegs dt accel decel v_max dwell_time fuel rest ⟨[0], [s0], [0], 0, s0, 0⟩ with _ | sf
    · rw [hl] at hout
      cases hout
    · rw [hl] at hout
      simp only [Option.some.injEq] at hout
      subst hout
      have hinit : timeMono ⟨[0], [s0], [0], 0, s0, 0⟩ := ⟨List.chain'_singleton 0, rfl⟩
      exact (routeLegs_timeMono dt accel decel v_max dwell_time hdt.le fuel rest _ sf hinit hl).1

/-- Concrete instantiation of the C8 amended theorem. -/
theorem simulate_route_time_mono_witness : (List.Chain' (fun p q : ℚ => p < q) [0, 1] ∧ (0 : ℚ) < 1) ∧ List.Chain' (fun p q : ℚ => p ≤ q) ([0, 1, 1] : List ℚ) :=
  ⟨⟨by simp [List.chain'_cons], by norm_num⟩, simulate_route_time_mono [0, 1] 0 1 1 1 1 1 (by simp [List.chain'_cons]) (by norm_num) (by norm_num) (by norm_num) (by norm_num) (by norm_num) ([0, 1, 1], [0, 1, 1], [0, 1, 0]) simulate_route_concrete_run⟩

/-
Mutation model for simulate_idm. Python VehicleState objects live on a
heap of references; simulate_idm receives references to the caller's
objects, copies their fields into freshly allocated objects
(src/marche_type.py lines 51-52) and mutates only the fresh ones.
-/

/-- A heap of VehicleState objects: a store indexed by references and an
allocation bound; exactly the references below next are allocated. -/
structure Mem where
  heap : ℕ → VehicleState
  next : ℕ

/-- Write one reference of a store. -/
def writeRef (h : ℕ → VehicleState) (r : ℕ) (s : VehicleState) : ℕ → VehicleState :=
  fun q => if q = r then s else h q

/-- One loop iteration of simulate_idm acting on the heap through the two
working references, preserving the Python statement order of lines 55-61:
write the lead, read both objects, compute the acceleration, write the
follower, then read the follower fields for the appended sample. -/
noncomputable def simIdmRefStep (params : IDMParameters) (dt lead_speed : ℝ) (leadRef folRef : ℕ) (h : ℕ → VehicleState) : (ℕ → VehicleState) × (ℝ × ℝ) :=
  let lead0 := h leadRef
  let h1 := writeRef h leadRef ⟨lead0.x + lead_speed * dt, lead_speed⟩
  let fol0 := h1 folRef
  let acc := idm_acceleration (h1 leadRef) fol0 params
  let v' := max 0 (fol0.v + acc * dt)
  let fol1 : VehicleState := ⟨fol0.x + v' * dt, v'⟩
  (writeRef h1 folRef fol1, (fol1.x, fol1.v))

/-- The sample loop of simulate_idm on the heap model. -/
noncomputable def simIdmRefLoop (params : IDMParameters) (dt lead_speed : ℝ) (leadRef folRef : ℕ) : ℕ → (ℕ → VehicleState) → List (ℝ × ℝ) × (ℕ → VehicleState)
  | 0, h => ([], h)
  | n + 1, h =>
    let step := simIdmRefStep params dt lead_speed leadRef folRef h
    let rest := simIdmRefLoop params dt lead_speed leadRef folRef n step.1
    (step.2 :: rest.1, rest.2)

/-- simulate_idm on the mutation model: allocate fresh copies of the
caller's lead and follower objects, run the loop mutating only the
copies, and return the samples together with the final memory. -/
noncomputable def simulate_idm_mem (params : IDMParameters) (dt : ℝ) (m : Mem) (lead_ref follower_ref : ℕ) (steps : ℕ) (lead_speed : ℝ) : List (ℝ × ℝ) × Mem :=
  let leadRef := m.next
  let h1 := writeRef m.heap leadRef ⟨(m.heap lead_ref).x, (m.heap lead_ref).v⟩
  let folRef := m.next + 1
  let h2 := writeRef h1 folRef ⟨(h1 follower_ref).x, (h1 follower_ref).v⟩
  let run := simIdmRefLoop params dt lead_speed leadRef folRef steps h2
  (run.1, ⟨run.2, m.next + 2⟩)

lemma simIdmRefLoop_frame (params : IDMParameters) (dt lead_speed : ℝ) (leadRef folRef : ℕ) : ∀ (n : ℕ) (h : ℕ → VehicleState) (r : ℕ), r ≠ leadRef → r ≠ folRef → (simIdmRefLoop params dt lead_speed leadRef folRef n h).2 r = h r := by
  intro n
  induction n with
  | zero => intro h r _ _; rfl
  | succ n ih =>
    intro h r hr1 hr2
    rw [simIdmRefLoop]
    rw [ih (simIdmRefStep params dt lead_speed leadRef folRef h).1 r hr1 hr2]
    simp only [simIdmRefStep, writeRef]
    rw [if_neg hr2, if_neg hr1]

/-- Claim C9: simulate_idm leaves the caller's lead and follower objects
unchanged: for any allocated references lead_ref and follower_ref, the
heap after the call holds the same VehicleState at those references as
before the call; the working copies live at fresh references. -/
theorem simulate_idm_mem_frame (params : IDMParameters) (dt : ℝ) (m : Mem) (lead_ref follower_ref : ℕ) (steps : ℕ) (lead_speed : ℝ) (hl : lead_ref < m.next) (hf : follower_ref < m.next) : (simulate_idm_mem params dt m lead_ref follower_ref steps lead_speed).2.heap lead_ref = m.heap lead_ref ∧ (simulate_idm_mem params dt m lead_ref follower_ref steps lead_speed).2.heap follower_ref = m.heap follower_ref := by
  have hln : lead_ref ≠ m.next := Nat.ne_of_lt hl
  have hln1 : lead_ref ≠ m.next + 1 := by omega
  have hfn : follower_ref ≠ m.next := Nat.ne_of_lt hf
  have hfn1 : follower_ref ≠ m.next + 1 := by omega
  constructor
  · simp only [simulate_idm_mem]
    rw [simIdmRefLoop_frame params dt lead_speed m.next (m.next + 1) steps _ lead_ref hln hln1]
    simp only [writeRef]
    rw [if_neg hln1, if_neg hln]
  · simp only [simulate_idm_mem]
    rw [simIdmRefLoop_frame params dt lead_speed m.next (m.next + 1) steps _ follower_ref hfn hfn1]
    simp only [writeRef]
    rw [if_neg hfn1, if_neg hfn]

/-- Concrete instantiation of the C9 theorem. -/
theorem simulate_idm_mem_frame_witness : (0 < 2 ∧ 1 < 2) ∧ ((simulate_idm_mem ⟨1, 1, 1, 1, 0, 4⟩ 1 ⟨fun _ => ⟨0, 0⟩, 2⟩ 0 1 3 0).2.heap 0 = (⟨0, 0⟩ : VehicleState) ∧ (simulate_idm_mem ⟨1, 1, 1, 1, 0, 4⟩ 1 ⟨fun _ => ⟨0, 0⟩, 2⟩ 0 1 3 0).2.heap 1 = (⟨0, 0⟩ : VehicleState)) :=
  ⟨⟨by norm_num, by norm_num⟩, simulate_idm_mem_frame ⟨1, 1, 1, 1, 0, 4⟩ 1 ⟨fun _ => ⟨0, 0⟩, 2⟩ 0 1 3 0 (by norm_num) (by norm_num)⟩

/-
Termination of the per-leg while loop for dt > 0, accel > 0, decel > 0,
v_max > 0. Invariant: 0 <= v <= v_max. From a zero-speed state under the
guard, the braking test fails and the acceleration branch advances x by at
least min v_max (accel * dt) * dt; each braking step lowers v by decel * dt
towards 0 while never moving x backwards, so progress recurs within a
bounded number of iterations and x reaches the target.
-/

lemma legStep_v_def (dt accel decel v_max target : ℚ) (s : RouteAcc) : (legStep dt accel decel v_max target s).v = if target - s.x ≤ s.v ^ 2 / (2 * decel) then max 0 (s.v - decel * dt) else if s.v < v_max then min v_max (s.v + accel * dt) else s.v := rfl

lemma legStep_v_nonneg (dt accel decel v_max target : ℚ) (hdt : 0 ≤ dt) (hacc : 0 ≤ accel) (hvm : 0 ≤ v_max) (s : RouteAcc) (h0 : 0 ≤ s.v) : 0 ≤ (legStep dt accel decel v_max target s).v := by
  rw [legStep_v_def]
  split
  · exact le_max_left 0 _
  · split
    · exact le_min hvm (by nlinarith)
    · exact h0

lemma legStep_x_ge (dt accel decel v_max target : ℚ) (hdt : 0 ≤ dt) (hacc : 0 ≤ accel) (hvm : 0 ≤ v_max) (s : RouteAcc) (h0 : 0 ≤ s.v) : s.x ≤ (legStep dt accel decel v_max target s).x := by
  have hv := legStep_v_nonneg dt accel decel v_max target hdt hacc hvm s h0
  rw [legStep_x]
  nlinarith

lemma legStep_x_advance (dt accel decel v_max target : ℚ) (hdt : 0 < dt) (hacc : 0 < accel) (hvm : 0 < v_max) (s : RouteAcc) (h0 : 0 ≤ s.v) (hB : ¬ target - s.x ≤ s.v ^ 2 / (2 * decel)) : s.x + min v_max (accel * dt) * dt ≤ (legStep dt accel decel v_max target s).x := by
  rw [legStep_x, legStep_v_def]
  rw [if_neg hB]
  by_cases hv : s.v < v_max
  · rw [if_pos hv]
    have h1 : min v_max (accel * dt) ≤ min v_max (s.v + accel * dt) := le_min (min_le_left _ _) (le_trans (min_le_right _ _) (by linarith))
    nlinarith
  · rw [if_neg hv]
    push_neg at hv
    have h1 : min v_max (accel * dt) ≤ s.v := le_trans (min_le_left _ _) hv
    nlinarith

lemma legStep_v_brake (dt accel decel v_max target : ℚ) (s : RouteAcc) (hB : target - s.x ≤ s.v ^ 2 / (2 * decel)) : (legStep dt accel decel v_max target s).v = max 0 (s.v - decel * dt) := by
  rw [legStep_v_def, if_pos hB]

lemma legReaches_of_not_lt (dt accel decel v_max target : ℚ) (s : RouteAcc) (h : ¬ s.x < target) : ∃ n, (legLoop dt accel decel v_max target n s).isSome :=
  ⟨0, by rw [legLoop_of_not_lt dt accel decel v_max target 0 s h]; rfl⟩

lemma legReaches_step (dt accel decel v_max target : ℚ) (s : RouteAcc) (h : s.x < target) (hr : ∃ n, (legLoop dt accel decel v_max target n (legStep dt accel decel v_max target s)).isSome) : ∃ n, (legLoop dt accel decel v_max target n s).isSome := by
  obtain ⟨n, hn⟩ := hr
  exact ⟨n + 1, by rw [legLoop_succ_of_lt dt accel decel v_max target n s h]; exact hn⟩

lemma legReaches_inner (dt accel decel v_max target : ℚ) (hdt : 0 < dt) (hacc : 0 < accel) (hdec : 0 < decel) (hvm : 0 < v_max) (c : ℕ) (ihc : ∀ s : RouteAcc, 0 ≤ s.v → s.v ≤ v_max → target - s.x ≤ (c : ℚ) * (min v_max (accel * dt) * dt) → ∃ n, (legLoop dt accel decel v_max target n s).isSome) : ∀ (j : ℕ) (s : RouteAcc), 0 ≤ s.v → s.v ≤ v_max → s.v ≤ (j : ℚ) * (decel * dt) → target - s.x ≤ ((c : ℚ) + 1) * (min v_max (accel * dt) * dt) → ∃ n, (legLoop dt accel decel v_max target n s).isSome := by
  have key : ∀ s : RouteAcc, 0 ≤ s.v → s.v ≤ v_max → s.x < target → ¬ target - s.x ≤ s.v ^ 2 / (2 * decel) → target - s.x ≤ ((c : ℚ) + 1) * (min v_max (accel * dt) * dt) → ∃ n, (legLoop dt accel decel v_max target n s).isSome := by
    intro s h0 hv hx hB hb
    apply legReaches_step dt accel decel v_max target s hx
    apply ihc
    · exact legStep_v_nonneg dt accel decel v_max target hdt.le hacc.le hvm.le s h0
    · exact legStep_v_le dt accel decel v_max target s hx hdt.le hv hvm.le
    · have hadv := legStep_x_advance dt accel decel v_max target hdt hacc hvm s h0 hB
      have hexp : ((c : ℚ) + 1) * (min v_max (accel * dt) * dt) = (c : ℚ) * (min v_max (accel * dt) * dt) + min v_max (accel * dt) * dt := by ring
      linarith
  intro j
  induction j with
  | zero =>
    intro s h0 hv hj hb
    by_cases hx : s.x < target
    · have hv0 : s.v = 0 := le_antisymm (by simpa using hj) h0
      have hB : ¬ target - s.x ≤ s.v ^ 2 / (2 * decel) := by
        rw [hv0]
        norm_num
        linarith
      exact key s h0 hv hx hB hb
    · exact legReaches_of_not_lt dt accel decel v_max target s hx
  | succ j ihj =>
    intro s h0 hv hj hb
    by_cases hx : s.x < target
    · by_cases hB : target - s.x ≤ s.v ^ 2 / (2 * decel)
      · apply legReaches_step dt accel decel v_max target s hx
        apply ihj
        · rw [legStep_v_brake dt accel decel v_max target s hB]
          exact le_max_left 0 _
        · exact legStep_v_le dt accel decel v_max target s hx hdt.le hv hvm.le
        · rw [legStep_v_brake dt accel decel v_max target s hB]
          have hdd : 0 ≤ (j : ℚ) * (decel * dt) := by positivity
          apply max_le hdd
          push_cast at hj
          nlinarith
        · have hxm := legStep_x_ge dt accel decel v_max target hdt.le hacc.le hvm.le s h0
          linarith
      · exact key s h0 hv hx hB hb
    · exact legReaches_of_not_lt dt accel decel v_max target s hx

lemma legReaches_of_dist_bound (dt accel decel v_max target : ℚ) (hdt : 0 < dt) (hacc : 0 < accel) (hdec : 0 < decel) (hvm : 0 < v_max) : ∀ (c : ℕ) (s : RouteAcc), 0 ≤ s.v → s.v ≤ v_max → target - s.x ≤ (c : ℚ) * (min v_max (accel * dt) * dt) → ∃ n, (legLoop dt accel decel v_max target n s).isSome := by
  intro c
  induction c with
  | zero =>
    intro s h0 hv hb
    apply legReaches_of_not_lt
    simp only [Nat.cast_zero, zero_mul] at hb
    exact not_lt.mpr (by linarith)
  | succ c ihc =>
    intro s h0 hv hb
    refine legReaches_inner dt accel decel v_max target hdt hacc hdec hvm c ihc ⌈v_max / (decel * dt)⌉₊ s h0 hv ?_ ?_
    · have hpos : 0 < decel * dt := mul_pos hdec hdt
      have h1 : v_max / (decel * dt) ≤ (⌈v_max / (decel * dt)⌉₊ : ℚ) := Nat.le_ceil _
      rw [div_le_iff hpos] at h1
      linarith
    · push_cast at hb
      exact hb

lemma legReaches_start (dt accel decel v_max target : ℚ) (hdt : 0 < dt) (hacc : 0 < accel) (hdec : 0 < decel) (hvm : 0 < v_max) (s : RouteAcc) (h0 : 0 ≤ s.v) (hv : s.v ≤ v_max) : ∃ n, (legLoop dt accel decel v_max target n s).isSome := by
  have hd : 0 < min v_max (accel * dt) * dt := mul_pos (lt_min hvm (mul_pos hacc hdt)) hdt
  apply legReaches_of_dist_bound dt accel decel v_max target hdt hacc hdec hvm ⌈(target - s.x) / (min v_max (accel * dt) * dt)⌉₊ s h0 hv
  have h1 : (target - s.x) / (min v_max (accel * dt) * dt) ≤ (⌈(target - s.x) / (min v_max (accel * dt) * dt)⌉₊ : ℚ) := Nat.le_ceil _
  rw [div_le_iff hd] at h1
  exact h1

lemma runLeg_some_of_legLoop (dt accel decel v_max dwell_time target : ℚ) (n : ℕ) (s s1 : RouteAcc) (h : legLoop dt accel decel v_max target n s = some s1) : ∃ s', runLeg dt accel decel v_max dwell_time target n s = some s' ∧ s'.v = 0 := by
  rw [runLeg, h]
  exact ⟨⟨(dwellLoop dt (dwellSteps dt dwell_time) (snapArrive target s1)).time, (dwellLoop dt (dwellSteps dt dwell_time) (snapArrive target s1)).pos, (dwellLoop dt (dwellSteps dt dwell_time) (snapArrive target s1)).vel, (dwellLoop dt (dwellSteps dt dwell_time) (snapArrive target s1)).t, (dwellLoop dt (dwellSteps dt dwell_time) (snapArrive target s1)).x, 0⟩, rfl, rfl⟩

lemma runLeg_mono (dt accel decel v_max dwell_time target : ℚ) (n m : ℕ) (hnm : n ≤ m) (s : RouteAcc) (h : (runLeg dt accel decel v_max dwell_time target n s).isSome) : runLeg dt accel decel v_max dwell_time target m s = runLeg dt accel decel v_max dwell_time target n s := by
  rcases hl : legLoop dt accel decel v_max target n s with _ | s1
  · rw [runLeg, hl] at h
    simp at h
  · have hm := legLoop_mono dt accel decel v_max target n m hnm s (by rw [hl]; rfl)
    simp only [runLeg]
    rw [hm]

lemma routeLegs_mono (dt accel decel v_max dwell_time : ℚ) : ∀ (targets : List ℚ) (n m : ℕ), n ≤ m → ∀ s : RouteAcc, (routeLegs dt accel decel v_max dwell_time n targets s).isSome → routeLegs dt accel decel v_max dwell_time m targets s = routeLegs dt accel decel v_max dwell_time n targets s := by
  intro targets
  induction targets with
  | nil => intro n m hnm s h; rfl
  | cons target rest ih =>
    intro n m hnm s h
    rcases hr : runLeg dt accel decel v_max dwell_time target n s with _ | s1
    · rw [routeLegs, hr] at h
      simp at h
    · have hm := runLeg_mono dt accel decel v_max dwell_time target n m hnm s (by rw [hr]; rfl)
      rw [routeLegs, hr] at h
      simp only [routeLegs]
      rw [hm, hr]
      exact ih n m hnm s1 h

lemma routeLegs_reaches (dt accel decel v_max dwell_time : ℚ) (hdt : 0 < dt) (hacc : 0 < accel) (hdec : 0 < decel) (hvm : 0 < v_max) : ∀ (targets : List ℚ) (s : RouteAcc), s.v = 0 → ∃ n, (routeLegs dt accel decel v_max dwell_time n targets s).isSome := by
  intro targets
  induction targets with
  | nil => intro s _; exact ⟨0, rfl⟩
  | cons target rest ih =>
    intro s hv
    obtain ⟨n1, h1⟩ := legReaches_start dt accel decel v_max target hdt hacc hdec hvm s (by rw [hv]) (by rw [hv]; exact hvm.le)
    rcases hl : legLoop dt accel decel v_max target n1 s with _ | s1
    · rw [hl] at h1
      simp at h1
    · obtain ⟨s', hrun, hsv⟩ := runLeg_some_of_legLoop dt accel decel v_max dwell_time target n1 s s1 hl
      obtain ⟨n2, h2⟩ := ih s' hsv
      refine ⟨max n1 n2, ?_⟩
      have hrm : runLeg dt accel decel v_max dwell_time target (max n1 n2) s = some s' := by
        rw [runLeg_mono dt accel decel v_max dwell_time target n1 (max n1 n2) (le_max_left _ _) s (by rw [hrun]; rfl)]
        exact hrun
      rw [routeLegs, hrm]
      show (routeLegs dt accel decel v_max dwell_time (max n1 n2) rest s').isSome
      rw [routeLegs_mono dt accel decel v_max dwell_time rest n2 (max n1 n2) (le_max_right _ _) s' h2]
      exact h2

/-- Amended claim C10: for every nonempty finite station sequence
(including non-increasing ones) with dt > 0, accel > 0, decel > 0 and
additionally v_max > 0, simulate_route terminates and returns; moreover a
leg whose target is at or behind the current position runs its while loop
zero times. -/
theorem simulate_route_terminates (stations : List ℚ) (dwell_time accel decel v_max dt : ℚ) (hne : stations ≠ []) (hdt : 0 < dt) (hacc : 0 < accel) (hdec : 0 < decel) (hvm : 0 < v_max) : routeTerminates stations dwell_time accel decel v_max dt ∧ ∀ (fuel : ℕ) (target : ℚ) (s : RouteAcc), target ≤ s.x → legLoop dt accel decel v_max target fuel s = some s := by
  constructor
  · match stations with
    | [] => exact absurd rfl hne
    | s0 :: rest =>
      obtain ⟨n, hn⟩ := routeLegs_reaches dt accel decel v_max dwell_time hdt hacc hdec hvm rest ⟨[0], [s0], [0], 0, s0, 0⟩ rfl
      refine ⟨n, ?_⟩
      rw [simulate_route]
      rcases h : routeLegs dt accel decel v_max dwell_time n rest ⟨[0], [s0], [0], 0, s0, 0⟩ with _ | sf
      · rw [h] at hn
        simp at hn
      · rfl
  · intro fuel target s h
    exact legLoop_of_not_lt dt accel decel v_max target fuel s (not_lt.mpr h)

/-- Concrete instantiation of the C10 amended theorem. -/
theorem simulate_route_terminates_witness : (([0, 1] : List ℚ) ≠ [] ∧ (0 : ℚ) < 1) ∧ (routeTerminates [0, 1] 0 1 1 1 1 ∧ ∀ (fuel : ℕ) (target : ℚ) (s : RouteAcc), target ≤ s.x → legLoop 1 1 1 1 target fuel s = some s) :=
  ⟨⟨by simp, by norm_num⟩, simulate_route_terminates [0, 1] 0 1 1 1 1 (by simp) (by norm_num) (by norm_num) (by norm_num) (by norm_num)⟩

lemma vmax_zero_loop_stuck : ∀ (n : ℕ) (s : RouteAcc), s.x = 0 → s.v = 0 → legLoop 1 1 1 0 1 n s = none := by
  intro n
  induction n with
  | zero =>
    intro s hx hv
    rw [legLoop]
    rw [if_pos (by rw [hx]; norm_num)]
  | succ n ih =>
    intro s hx hv
    rw [legLoop_succ_of_lt 1 1 1 0 1 n s (by rw [hx]; norm_num)]
    apply ih
    · show s.x + (legStep 1 1 1 0 1 s).v * 1 = 0
      rw [legStep_v_def, hx, hv]
      norm_num
    · rw [legStep_v_def, hx, hv]
      norm_num

/-- Counterexample to claim C10 as stated: the claim omits v_max > 0; with
v_max = 0 the acceleration branch never raises the speed above 0, the leg
loop makes no progress, and simulate_route on stations [0, 1] runs forever
(every fuel is exhausted). -/
theorem route_vmax_zero_counterexample : ¬ routeTerminates [0, 1] 0 1 1 0 1 := by
  rintro ⟨n, hn⟩
  have h1 : legLoop 1 1 1 0 1 n ⟨[0], [0], [0], 0, 0, 0⟩ = none := vmax_zero_loop_stuck n ⟨[0], [0], [0], 0, 0, 0⟩ rfl rfl
  rw [simulate_route, routeLegs, runLeg, h1] at hn
  simp at hn
